import Mathlib

/-!
Verification development for the `lps_utils` quantities engine
(`src/lps_utils/unity.py` and `src/lps_utils/quantities.py`).

The Python code works on IEEE doubles; the embedding uses exact rationals
(`ℚ`) for magnitudes and conversion factors of the dimensions whose factors
are rational (Distance, Time, Frequency, Speed, Acceleration), and exact
reals (`ℝ`) for the angle/bearing layer, whose degree factor is `π/180`.
Fallible Python code (raises) is embedded as `Except`.
-/

/-- Physical dimension tags: one per unit enumeration class of `unity.py`
that the claims touch.  In the source each dimension is a distinct Python
enum class and a distinct `Quantity` subclass; the constructors of the
subclasses pair a quantity with a unit of its own dimension, so the runtime
class of a quantity is identified with the dimension of its unit here. -/
inductive Dim
  | distance
  | time
  | frequency
  | speed
  | acceleration
  deriving DecidableEq, Repr

/-- The unit enumerations of `unity.py` (rational-factor dimensions),
flattened into one inductive; `dim` recovers the owning enumeration. -/
inductive UnityVal
  | m | yd | nmi | ft
  | s | minute | hour
  | hz | rpm
  | m_s | km_h | kt
  | m_s2 | km_h2 | kt_h
  deriving DecidableEq, Repr

/-- Owning dimension (Python enum class) of each unit member. -/
def UnityVal.dim : UnityVal → Dim
  | .m | .yd | .nmi | .ft => .distance
  | .s | .minute | .hour => .time
  | .hz | .rpm => .frequency
  | .m_s | .km_h | .kt => .speed
  | .m_s2 | .km_h2 | .kt_h => .acceleration

/-- `Unity.convert_to_base` of `unity.py`: multiplicative factor from the
unit to its dimension's base unit. -/
def UnityVal.convert_to_base : UnityVal → ℚ
  | .m => 1
  | .yd => 9144 / 10000
  | .nmi => 1852
  | .ft => 3048 / 10000
  | .s => 1
  | .minute => 60
  | .hour => 3600
  | .hz => 1
  | .rpm => 1 / 60
  | .m_s => 1
  | .km_h => 1000 / 3600
  | .kt => 1852 / 3600
  | .m_s2 => 1
  | .km_h2 => 1000 / (3600 * 3600)
  | .kt_h => 1852 / (3600 * 3600)

/-- `Prefix` enum of `unity.py` (distinct members only; Python aliases such
as `k`/`KILO` are one member).  Named `Pfx` because `prefix` and close
variants are unusable as Lean identifiers. -/
inductive Pfx
  | base
  | yocto | zepto | atto | femto | pico | nano | micro | milli
  | kilo | mega | giga | tera | peta | exa | zetta | yotta
  | kibi | mebi | gibi | tebi | pebi | exbi | zebi | yobi
  deriving DecidableEq, Repr

/-- `Prefix.as_float` of `unity.py`. -/
def Pfx.as_float : Pfx → ℚ
  | .base => 1
  | .yocto => 1 / 10 ^ 24
  | .zepto => 1 / 10 ^ 21
  | .atto => 1 / 10 ^ 18
  | .femto => 1 / 10 ^ 15
  | .pico => 1 / 10 ^ 12
  | .nano => 1 / 10 ^ 9
  | .micro => 1 / 10 ^ 6
  | .milli => 1 / 10 ^ 3
  | .kilo => 10 ^ 3
  | .mega => 10 ^ 6
  | .giga => 10 ^ 9
  | .tera => 10 ^ 12
  | .peta => 10 ^ 15
  | .exa => 10 ^ 18
  | .zetta => 10 ^ 21
  | .yotta => 10 ^ 24
  | .kibi => 2 ^ 10
  | .mebi => 2 ^ 20
  | .gibi => 2 ^ 30
  | .tebi => 2 ^ 40
  | .pebi => 2 ^ 50
  | .exbi => 2 ^ 60
  | .zebi => 2 ^ 70
  | .yobi => 2 ^ 80

/-- The state of a `Quantity` instance of `quantities.py`:
magnitude, unit member, prefix, and (integer) power. -/
structure Quantity where
  magnitude : ℚ
  unity : UnityVal
  pfx : Pfx
  power : ℤ
  deriving DecidableEq, Repr

/-- The runtime faults of `quantities.py`, one constructor per raise site
reachable from the modelled operations (the source raises
`UnboundLocalError`, `ZeroDivisionError` or `NotImplementedError` with a
message; only the site identity matters here). -/
inductive QErr
  | unityNotCompatible
  | incompatiblePower
  | conversionUndefined
  | zeroDivision
  | notImplementedError
  deriving DecidableEq, Repr

/-- A value returned by `__truediv__`/`__mul__`: either a bare float
(dimensionless scalar) or a new quantity. -/
inductive QVal
  | scalar (x : ℚ)
  | quant (q : Quantity)
  deriving DecidableEq, Repr

/-- `Quantity.convert_prefix`.  The Python body is
`prefix_in.as_float()/prefix_out.as_float() ** power`; `**` binds tighter
than `/`, so only the denominator is raised to the power. -/
def convert_pfx (pin pout : Pfx) (power : ℤ) : ℚ :=
  pin.as_float / pout.as_float ^ power

/-- `Quantity.convert_unity`: the `isinstance` test in the source succeeds
exactly when both unit members come from the same enum class, i.e. the same
dimension; otherwise the function raises. -/
def convert_unity (uin uout : UnityVal) (power : ℤ) : Except QErr ℚ :=
  if uin.dim = uout.dim then .ok ((uin.convert_to_base / uout.convert_to_base) ^ power)
  else .error .conversionUndefined

/-- `Quantity.get(unity, prefix)`: magnitude times unit conversion times
prefix conversion; the unit conversion can raise across dimensions. -/
def Quantity.get (q : Quantity) (u : UnityVal) (p : Pfx) : Except QErr ℚ :=
  match convert_unity q.unity u q.power with
  | .ok c => .ok (q.magnitude * c * convert_pfx q.pfx p q.power)
  | .error e => .error e

/-- The value `Quantity.get` returns when the dimensions agree
(pure companion of `Quantity.get`, see `Quantity.get_eq_ok`). -/
def Quantity.getP (q : Quantity) (u : UnityVal) (p : Pfx) : ℚ :=
  q.magnitude * (q.unity.convert_to_base / u.convert_to_base) ^ q.power *
    convert_pfx q.pfx p q.power

/-- `isinstance(self.unity, type(other))` from `_check_compatibility`:
`self.unity` is a unit-enum member and `type(other)` a `Quantity` subclass,
so the test is false for every pair of operands. -/
def unity_isinstance_quantity (_u : UnityVal) (_o : Quantity) : Bool := false

/-- `Quantity._check_compatibility`: the dimension test (vacuous, see
`unity_isinstance_quantity`) followed by the power test. -/
def Quantity.check_compatibility (q o : Quantity) : Except QErr Unit :=
  if unity_isinstance_quantity q.unity o then .error .unityNotCompatible
  else if q.power ≠ o.power then .error .incompatiblePower
  else .ok ()

/-- `Quantity.__eq__`: compatibility check, then both operands converted to
`self`'s unit and prefix and compared. -/
def Quantity.eqOp (q o : Quantity) : Except QErr Bool :=
  match q.check_compatibility o with
  | .error e => .error e
  | .ok _ =>
    match q.get q.unity q.pfx, o.get q.unity q.pfx with
    | .ok a, .ok b => .ok (decide (a = b))
    | .error e, _ => .error e
    | _, .error e => .error e

/-- `Quantity.__lt__` (the other orderings differ only in the comparison on
the two converted floats). -/
def Quantity.ltOp (q o : Quantity) : Except QErr Bool :=
  match q.check_compatibility o with
  | .error e => .error e
  | .ok _ =>
    match q.get q.unity q.pfx, o.get q.unity q.pfx with
    | .ok a, .ok b => .ok (decide (a < b))
    | .error e, _ => .error e
    | _, .error e => .error e

/-- `Quantity.__add__`: compatibility check, then a new quantity with
`self`'s unit, prefix and power and the sum of the converted values. -/
def Quantity.add (q o : Quantity) : Except QErr Quantity :=
  match q.check_compatibility o with
  | .error e => .error e
  | .ok _ =>
    match q.get q.unity q.pfx, o.get q.unity q.pfx with
    | .ok a, .ok b => .ok ⟨a + b, q.unity, q.pfx, q.power⟩
    | .error e, _ => .error e
    | _, .error e => .error e

/-- `Quantity.__sub__`. -/
def Quantity.sub (q o : Quantity) : Except QErr Quantity :=
  match q.check_compatibility o with
  | .error e => .error e
  | .ok _ =>
    match q.get q.unity q.pfx, o.get q.unity q.pfx with
    | .ok a, .ok b => .ok ⟨a - b, q.unity, q.pfx, q.power⟩
    | .error e, _ => .error e
    | _, .error e => .error e

/-- `Quantity.__mul__` restricted to a quantity operand: the
`isinstance(other, type(self))` guard (same runtime class, i.e. same
dimension here), the compatibility check, then the product with summed
powers; a non-quantity, non-number operand raises `NotImplementedError`.
The plain-number branch of the source is not needed by any claim. -/
def Quantity.mul_generic (q o : Quantity) : Except QErr QVal :=
  if o.unity.dim = q.unity.dim then
    match q.check_compatibility o with
    | .error e => .error e
    | .ok _ =>
      match q.get q.unity q.pfx, o.get q.unity q.pfx with
      | .ok a, .ok b => .ok (.quant ⟨a * b, q.unity, q.pfx, q.power + o.power⟩)
      | .error e, _ => .error e
      | _, .error e => .error e
  else .error .notImplementedError

/-- `Quantity.__truediv__` restricted to a quantity operand: the
`isinstance` guard, the compatibility check, then either a dimensionless
scalar (equal powers) or a quantity with subtracted powers; Python raises
`ZeroDivisionError` on a zero divisor. -/
def Quantity.truediv_generic (q o : Quantity) : Except QErr QVal :=
  if o.unity.dim = q.unity.dim then
    match q.check_compatibility o with
    | .error e => .error e
    | .ok _ =>
      match q.get q.unity q.pfx, o.get q.unity q.pfx with
      | .ok a, .ok b =>
        if b = 0 then .error .zeroDivision
        else if q.power = o.power then .ok (.scalar (a / b))
        else .ok (.quant ⟨a / b, q.unity, q.pfx, q.power - o.power⟩)
      | .error e, _ => .error e
      | _, .error e => .error e
  else .error .notImplementedError

/-- `Quantity.__rtruediv__`: `scale / magnitude`, same unit and prefix,
power negated (`self.power * -1`). -/
def Quantity.rtruediv_generic (scale : ℚ) (q : Quantity) : Except QErr Quantity :=
  if q.magnitude = 0 then .error .zeroDivision
  else .ok ⟨scale / q.magnitude, q.unity, q.pfx, q.power * (-1)⟩

/-- `Time.s` factory. -/
def Time.s (v : ℚ) : Quantity := ⟨v, .s, .base, 1⟩

/-- `Time.ms` factory. -/
def Time.ms (v : ℚ) : Quantity := ⟨v, .s, .milli, 1⟩

/-- `Distance.m` factory. -/
def Distance.m (v : ℚ) : Quantity := ⟨v, .m, .base, 1⟩

/-- `Speed.m_s` factory. -/
def Speed.m_s (v : ℚ) : Quantity := ⟨v, .m_s, .base, 1⟩

/-- `Acceleration.m_s2` factory. -/
def Acceleration.m_s2 (v : ℚ) : Quantity := ⟨v, .m_s2, .base, 1⟩

/-- `Frequency.hz` factory. -/
def Frequency.hz (v : ℚ) : Quantity := ⟨v, .hz, .base, 1⟩

/-- `Time.__rtruediv__`: `Frequency(scale / self.get_s(), HZ, BASE,
self.power)` (the power is passed through unnegated). -/
def Time.rtruediv (scale : ℚ) (q : Quantity) : Except QErr Quantity :=
  match q.get .s .base with
  | .error e => .error e
  | .ok sv =>
    if sv = 0 then .error .zeroDivision
    else .ok ⟨scale / sv, .hz, .base, q.power⟩

/-- `Frequency.__rtruediv__`: `Time(scale / self.get_hz(), S, BASE,
self.power)`. -/
def Frequency.rtruediv (scale : ℚ) (q : Quantity) : Except QErr Quantity :=
  match q.get .hz .base with
  | .error e => .error e
  | .ok hzv =>
    if hzv = 0 then .error .zeroDivision
    else .ok ⟨scale / hzv, .s, .base, q.power⟩

/-- `scale / q` with Python method dispatch on `q`'s class: `Time` and
`Frequency` override `__rtruediv__`; every other modelled class uses the
generic one. -/
def Quantity.rtruediv_dispatch (scale : ℚ) (q : Quantity) : Except QErr Quantity :=
  match q.unity.dim with
  | .time => Time.rtruediv scale q
  | .frequency => Frequency.rtruediv scale q
  | _ => Quantity.rtruediv_generic scale q

/-- `Distance.__truediv__`: the `Time` branches (equal powers give
`Speed.m_s`, doubled power gives `Acceleration.m_s2`), the `Speed` branch
(`Time.s`), and the fall-through to the generic division.  A failed inner
power test falls through to the later tests, as in the source. -/
def Distance.truediv (q o : Quantity) : Except QErr QVal :=
  if o.unity.dim = .time ∧ q.power = o.power then
    match q.get .m .base, o.get .s .base with
    | .ok a, .ok b =>
      if b = 0 then .error .zeroDivision else .ok (.quant (Speed.m_s (a / b)))
    | .error e, _ => .error e
    | _, .error e => .error e
  else if o.unity.dim = .time ∧ 2 * q.power = o.power then
    match q.get .m .base, o.get .s .base with
    | .ok a, .ok b =>
      if b = 0 then .error .zeroDivision else .ok (.quant (Acceleration.m_s2 (a / b)))
    | .error e, _ => .error e
    | _, .error e => .error e
  else if o.unity.dim = .speed ∧ q.power = o.power then
    match q.get .m .base, o.get .m_s .base with
    | .ok a, .ok b =>
      if b = 0 then .error .zeroDivision else .ok (.quant (Time.s (a / b)))
    | .error e, _ => .error e
    | _, .error e => .error e
  else Quantity.truediv_generic q o

/-- `Acceleration.__mul__`: the `Time` branches, then the generic product. -/
def Acceleration.mul (q o : Quantity) : Except QErr QVal :=
  if o.unity.dim = .time ∧ q.power = o.power then
    match q.get .m_s2 .base, o.get .s .base with
    | .ok a, .ok b => .ok (.quant (Speed.m_s (a * b)))
    | .error e, _ => .error e
    | _, .error e => .error e
  else if o.unity.dim = .time ∧ 2 * q.power = o.power then
    match q.get .m_s2 .base, o.get .s .base with
    | .ok a, .ok b => .ok (.quant (Distance.m (a * b)))
    | .error e, _ => .error e
    | _, .error e => .error e
  else Quantity.mul_generic q o

/-- `Time.__mul__`: the `Speed` branch (`Distance.m(get_s * get_m_s)`),
the `Frequency` branch (`self / (1/other)`; the inner division receives a
`Time` operand, so it lands in the generic `__truediv__`), the
`Acceleration` branch (`other * self`), then the generic product. -/
def Time.mul (q o : Quantity) : Except QErr QVal :=
  if o.unity.dim = .speed ∧ q.power = o.power then
    match q.get .s .base, o.get .m_s .base with
    | .ok a, .ok b => .ok (.quant (Distance.m (a * b)))
    | .error e, _ => .error e
    | _, .error e => .error e
  else if o.unity.dim = .frequency then
    match Frequency.rtruediv 1 o with
    | .error e => .error e
    | .ok t => Quantity.truediv_generic q t
  else if o.unity.dim = .acceleration then Acceleration.mul o q
  else Quantity.mul_generic q o

/-- `Speed.__mul__`: the `Time` branch delegates to `other * self`
(`Time.__mul__`), otherwise the generic product. -/
def Speed.mul (q o : Quantity) : Except QErr QVal :=
  if o.unity.dim = .time then Time.mul o q
  else Quantity.mul_generic q o

/-- `Distance.__mul__`: the `Frequency` branch computes `self / (1/other)`
(`1/other` calls `Frequency.__rtruediv__` and yields a `Time`, which the
outer division receives), otherwise the generic product. -/
def Distance.mul (q o : Quantity) : Except QErr QVal :=
  if o.unity.dim = .frequency then
    match Frequency.rtruediv 1 o with
    | .error e => .error e
    | .ok t => Distance.truediv q t
  else Quantity.mul_generic q o

/-- Refinement comparison target, modelled from the spec sentence for C1:
`get(targetUnit, targetPrefix)` equals magnitude ×
`(unit.toBase/targetUnit.toBase)^power × (prefix.factor/targetPrefix.factor)^power`
(here stated for same-dimension target units, where the code's `get` is
defined). -/
def Quantity.get_specFormula (q : Quantity) (u : UnityVal) (p : Pfx) : ℚ :=
  q.magnitude * (q.unity.convert_to_base / u.convert_to_base) ^ q.power *
    (q.pfx.as_float / p.as_float) ^ q.power

/-- The state of a `DMS` instance of `quantities.py`: degree, minute,
second components. -/
structure DMS where
  degree : ℚ
  minute : ℚ
  second : ℚ
  deriving DecidableEq, Repr

/-- `math.copysign(x, s)` at the call site of `DMS.get_degrees`: the sign
source there is the degree component, an exact integer value (so the Python
`-0.0` corner cannot arise and a zero sign source counts as positive). -/
def copysignQ (x s : ℚ) : ℚ := if s < 0 then -x else x

/-- `DMS.get_degrees`. -/
def DMS.get_degrees (d : DMS) : ℚ :=
  d.degree + copysignQ (d.minute / 60 + d.second / 3600) d.degree

/-- `DMS.by_degree`: truncate toward zero for the degree, then split the
absolute fractional part into minutes and seconds. -/
def DMS.by_degree (x : ℚ) : DMS :=
  let deg : ℤ := if 0 < x then ⌊x⌋ else ⌈x⌉
  let fr : ℚ := |x| - |(deg : ℚ)|
  let minute : ℤ := ⌊fr * 60⌋
  let rem : ℚ := fr * 60 - (minute : ℚ)
  ⟨(deg : ℚ), (minute : ℚ), rem * 60⟩

/-- Left-pad a string with a fill character up to a width. -/
def padLeft (c : Char) (w : Nat) (t : String) : String :=
  if w ≤ t.length then t else String.mk (List.replicate (w - t.length) c) ++ t

/-- Round-half-to-even on an exact rational, as Python `format` rounds. -/
def roundHalfEven (x : ℚ) : ℤ :=
  let n := ⌊x⌋
  let fr := x - (n : ℚ)
  if fr < 1 / 2 then n
  else if 1 / 2 < fr then n + 1
  else if n % 2 = 0 then n else n + 1

/-- Python fixed-point formatting `{v:0{width}.{pdec}f}` (when `zeroPad`)
or `{v:{width}.{pdec}f}` on an exact rational; the values formatted by
`DMS.to_string` are the nonnegative degree/minute/second components. -/
def formatFixed (x : ℚ) (width pdec : Nat) (zeroPad : Bool) : String :=
  let pow10 : ℕ := 10 ^ pdec
  let scaled : ℤ := roundHalfEven (|x| * (pow10 : ℚ))
  let core : String :=
    if pdec = 0 then toString scaled
    else toString (scaled / (pow10 : ℤ)) ++ "." ++
      padLeft '0' pdec (toString (scaled % (pow10 : ℤ)))
  let core : String := if x < 0 then "-" ++ core else core
  padLeft (if zeroPad then '0' else ' ') width core

/-- `DMS.to_string(precision, show_signal)`: degree (absolute value unless
`show_signal`) and minute with `02.0f`, second with `02.0f` when the
precision is zero and `{precision+3}.{precision}f` otherwise. -/
def DMS.to_string (d : DMS) (precision : Nat) (show_signal : Bool) : String :=
  let aux_degree := if show_signal then d.degree else |d.degree|
  formatFixed aux_degree 2 0 true ++ "°" ++ formatFixed d.minute 2 0 true ++ "'" ++
    (if precision = 0 then formatFixed d.second 2 0 true
     else formatFixed d.second (precision + 3) precision false) ++ "\""

/-- `Angle` unit enum of `unity.py` (`RAD`/`DEG`), kept separate from the
rational-factor units because its degree factor is `π/180`. -/
inductive AngleUnit
  | rad
  | deg
  deriving DecidableEq

/-- `Angle.convert_to_base` over exact reals. -/
noncomputable def AngleUnit.convert_to_base : AngleUnit → ℝ
  | .rad => 1
  | .deg => Real.pi / 180

/-- The state of an `Angle` quantity (power 1, base prefix, as built by the
`Angle.rad`/`Angle.deg` factories and everything in the bearing layer). -/
structure AngleQ where
  magnitude : ℝ
  unity : AngleUnit

/-- `Angle.get_rad` (power 1, base prefix, so only the unit factor acts). -/
noncomputable def AngleQ.get_rad (a : AngleQ) : ℝ :=
  a.magnitude * a.unity.convert_to_base

/-- `Angle.rad` factory. -/
def Angle.radQ (r : ℝ) : AngleQ := ⟨r, .rad⟩

/-- `BearingReference` enum (`ECCW`/`NCW`). -/
inductive BearingReference
  | eccw
  | ncw
  deriving DecidableEq

/-- Truncation toward zero, the quotient convention of C/Python `fmod`. -/
noncomputable def truncR (x : ℝ) : ℤ := if 0 ≤ x then ⌊x⌋ else ⌈x⌉

/-- `math.fmod`: remainder with the quotient truncated toward zero. -/
noncomputable def fmodR (x y : ℝ) : ℝ := x - y * ((truncR (x / y) : ℤ) : ℝ)

/-- `Bearing.set_reference`: identity for ECCW, `π/2 − angle` for NCW. -/
noncomputable def Bearing.set_reference (a : AngleQ) (ref : BearingReference) : AngleQ :=
  Angle.radQ (if ref = .eccw then a.get_rad else Real.pi / 2 - a.get_rad)

/-- `Bearing.coerce`: `fmod(angle, 2π)` plus `2π` when the original angle
is negative. -/
noncomputable def Bearing.coerce (a : AngleQ) : AngleQ :=
  Angle.radQ (fmodR a.get_rad (2 * Real.pi) +
    (if 0 ≤ a.get_rad then 0 else 2 * Real.pi))

/-- `Bearing.__init__`: reference-normalize, coerce, and store the radian
value (unit `RAD`, base prefix). -/
noncomputable def Bearing.init (a : AngleQ) (ref : BearingReference) : AngleQ :=
  Angle.radQ ((Bearing.coerce (Bearing.set_reference a ref)).get_rad)

/-- Every prefix factor is positive. -/
theorem Pfx.as_float_pos (p : Pfx) : 0 < p.as_float := by
  cases p <;> norm_num [Pfx.as_float]

/-- Every unit conversion factor is positive. -/
theorem UnityVal.convert_to_base_pos (u : UnityVal) : 0 < u.convert_to_base := by
  cases u <;> norm_num [UnityVal.convert_to_base]

/-- The prefix conversion factor is never zero. -/
theorem convert_pfx_ne_zero (pin pout : Pfx) (n : ℤ) : convert_pfx pin pout n ≠ 0 :=
  div_ne_zero (ne_of_gt (Pfx.as_float_pos pin))
    (zpow_ne_zero n (ne_of_gt (Pfx.as_float_pos pout)))

/-- Within a dimension, `get` succeeds and returns `getP`. -/
theorem Quantity.get_eq_ok (q : Quantity) (u : UnityVal) (p : Pfx)
    (h : q.unity.dim = u.dim) : q.get u p = .ok (q.getP u p) := by
  simp [Quantity.get, convert_unity, Quantity.getP, h]

/-- `get` at the quantity's own unit and prefix always succeeds. -/
theorem Quantity.get_self (q : Quantity) :
    q.get q.unity q.pfx = .ok (q.getP q.unity q.pfx) :=
  q.get_eq_ok q.unity q.pfx rfl

/-- A quantity with nonzero magnitude converts to a nonzero value. -/
theorem Quantity.getP_ne_zero (q : Quantity) (u : UnityVal) (p : Pfx)
    (hm : q.magnitude ≠ 0) : q.getP u p ≠ 0 :=
  mul_ne_zero
    (mul_ne_zero hm
      (zpow_ne_zero _ (div_ne_zero (ne_of_gt (UnityVal.convert_to_base_pos _))
        (ne_of_gt (UnityVal.convert_to_base_pos _)))))
    (convert_pfx_ne_zero _ _ _)

/-- Equal powers pass the compatibility check. -/
theorem Quantity.check_eq_ok (q o : Quantity) (h : q.power = o.power) :
    q.check_compatibility o = .ok () := by
  simp [Quantity.check_compatibility, unity_isinstance_quantity, h]

/-- A quantity compares equal to itself. -/
theorem Quantity.eqOp_self (q : Quantity) : q.eqOp q = .ok true := by
  simp [Quantity.eqOp, Quantity.check_compatibility, unity_isinstance_quantity, q.get_self]

/-- Claim C1: the spec formula for `get` multiplies by
`(prefix.factor/targetPrefix.factor)^power`, but in the code `**` binds
tighter than `/`, so only the target prefix factor is raised to the power.
At `Quantity(1, M, kilo, power=2).get(M, kilo)` the code returns `1/1000`
where the claimed formula (and the spec's own round-trip property) gives
`1`. -/
theorem c1_get_failing_eval :
    Quantity.get ⟨1, .m, .kilo, 2⟩ .m .kilo = .ok (1 / 1000) ∧
    Quantity.get_specFormula ⟨1, .m, .kilo, 2⟩ .m .kilo = 1 ∧
    (1 / 1000 : ℚ) ≠ 1 := by
  refine ⟨?_, ?_, by norm_num⟩
  · norm_num [Quantity.get, convert_unity, convert_pfx, UnityVal.dim,
      UnityVal.convert_to_base, Pfx.as_float]
  · norm_num [Quantity.get_specFormula, UnityVal.convert_to_base, Pfx.as_float]

/-- Claim C2: comparing a power-1 Distance with a power-2 Time raises the
power-incompatibility error, not the claimed dimension error, because the
dimension test of `_check_compatibility` is vacuous; with equal powers the
dimension failure surfaces only from `convert_unity` inside `get`; a
same-dimension equal-power comparison compares the converted values
(1 kilometre equals 1000 metres). -/
theorem c2_compare_failing_eval :
    Quantity.eqOp ⟨1, .m, .base, 1⟩ ⟨1, .s, .base, 2⟩ = .error .incompatiblePower ∧
    Quantity.ltOp ⟨1, .m, .base, 1⟩ ⟨1, .s, .base, 2⟩ = .error .incompatiblePower ∧
    Quantity.eqOp ⟨1, .m, .base, 1⟩ ⟨1, .s, .base, 1⟩ = .error .conversionUndefined ∧
    Quantity.eqOp ⟨1, .m, .kilo, 1⟩ ⟨1000, .m, .base, 1⟩ = .ok true := by
  refine ⟨rfl, rfl, rfl, ?_⟩
  norm_num [Quantity.eqOp, Quantity.check_compatibility, unity_isinstance_quantity,
    Quantity.get, convert_unity, convert_pfx, UnityVal.dim, UnityVal.convert_to_base,
    Pfx.as_float]

/-- Claim C3: addition and subtraction should produce magnitude
`Q.magnitude ± O.get(Q.unit, Q.prefix)`, but the code uses
`Q.get(Q.unit, Q.prefix)` on the left, which differs from `Q.magnitude`
when the power is not 1 and the prefix is not BASE (the C1 precedence
slip): `Quantity(1, S, milli, 2) ± Quantity(0, S, milli, 2)` gives
magnitude `1000`, not `1`.  The claim's 500 ms + 1 s example (power 1)
does give 1.5 s. -/
theorem c3_add_failing_eval :
    Quantity.add ⟨1, .s, .milli, 2⟩ ⟨0, .s, .milli, 2⟩ = .ok ⟨1000, .s, .milli, 2⟩ ∧
    Quantity.sub ⟨1, .s, .milli, 2⟩ ⟨0, .s, .milli, 2⟩ = .ok ⟨1000, .s, .milli, 2⟩ ∧
    (1000 : ℚ) ≠ 1 + 0 ∧
    Quantity.add (Time.ms 500) (Time.s 1) = .ok ⟨1500, .s, .milli, 1⟩ ∧
    Quantity.get ⟨1500, .s, .milli, 1⟩ .s .base = .ok (3 / 2) := by
  refine ⟨?_, ?_, by norm_num, ?_, ?_⟩ <;>
    norm_num [Quantity.add, Quantity.sub, Quantity.check_compatibility,
      unity_isinstance_quantity, Quantity.get, convert_unity, convert_pfx,
      UnityVal.dim, UnityVal.convert_to_base, Pfx.as_float, Time.ms, Time.s,
      Quantity.mk.injEq]

/-- Claim C4: same-dimension division with differing powers should return a
quantity of power `Q.power − O.power`, but `_check_compatibility` raises the
power-incompatibility error first, so that branch of `__truediv__` is
unreachable: `Quantity(6, M, BASE, 3) / Quantity(2, M, BASE, 1)` raises.
With equal powers the division does return the dimensionless scalar, and
`Q / Q = 1`. -/
theorem c4_divide_failing_eval :
    Quantity.truediv_generic ⟨6, .m, .base, 3⟩ ⟨2, .m, .base, 1⟩ =
      .error .incompatiblePower ∧
    Quantity.truediv_generic ⟨6, .m, .base, 1⟩ ⟨2, .m, .base, 1⟩ = .ok (.scalar 3) ∧
    Quantity.truediv_generic ⟨6, .nmi, .kilo, 1⟩ ⟨6, .nmi, .kilo, 1⟩ =
      .ok (.scalar 1) := by
  refine ⟨rfl, ?_, ?_⟩ <;>
    norm_num [Quantity.truediv_generic, Quantity.check_compatibility,
      unity_isinstance_quantity, Quantity.get, convert_unity, convert_pfx,
      UnityVal.dim, UnityVal.convert_to_base, Pfx.as_float]

/-- A power-1 quantity built from a base-factor unit with base prefix
converts to itself. -/
theorem Quantity.getP_base_unit (v : ℚ) (u : UnityVal) (hu : u.convert_to_base = 1) :
    (⟨v, u, .base, 1⟩ : Quantity).getP u .base = v := by
  simp [Quantity.getP, convert_pfx, Pfx.as_float, hu]

/-- Claim C5: for power-1 quantities, Distance ÷ Time yields a Speed whose
m/s value is metres over seconds; Time × Speed and Speed × Time (the latter
delegates to the former) yield a Distance in metres equal to seconds times
m/s; and `Speed.m_s(5) * Time.s(10) = Distance.m(50)`. -/
theorem c5_distance_time_speed
    (dm : ℚ) (du : UnityVal) (dp : Pfx) (tm : ℚ) (tu : UnityVal) (tp : Pfx)
    (sm : ℚ) (su : UnityVal) (sp : Pfx)
    (hdu : du.dim = .distance) (htu : tu.dim = .time) (hsu : su.dim = .speed)
    (ht0 : Quantity.getP ⟨tm, tu, tp, 1⟩ .s .base ≠ 0) :
    Distance.truediv ⟨dm, du, dp, 1⟩ ⟨tm, tu, tp, 1⟩ =
      .ok (.quant (Speed.m_s (Quantity.getP ⟨dm, du, dp, 1⟩ .m .base /
        Quantity.getP ⟨tm, tu, tp, 1⟩ .s .base))) ∧
    Quantity.getP (Speed.m_s (Quantity.getP ⟨dm, du, dp, 1⟩ .m .base /
        Quantity.getP ⟨tm, tu, tp, 1⟩ .s .base)) .m_s .base =
      Quantity.getP ⟨dm, du, dp, 1⟩ .m .base / Quantity.getP ⟨tm, tu, tp, 1⟩ .s .base ∧
    Time.mul ⟨tm, tu, tp, 1⟩ ⟨sm, su, sp, 1⟩ =
      .ok (.quant (Distance.m (Quantity.getP ⟨tm, tu, tp, 1⟩ .s .base *
        Quantity.getP ⟨sm, su, sp, 1⟩ .m_s .base))) ∧
    Speed.mul ⟨sm, su, sp, 1⟩ ⟨tm, tu, tp, 1⟩ =
      .ok (.quant (Distance.m (Quantity.getP ⟨tm, tu, tp, 1⟩ .s .base *
        Quantity.getP ⟨sm, su, sp, 1⟩ .m_s .base))) ∧
    Speed.mul (Speed.m_s 5) (Time.s 10) = .ok (.quant (Distance.m 50)) := by
  have hgd : (⟨dm, du, dp, (1 : ℤ)⟩ : Quantity).get .m .base =
      .ok (Quantity.getP ⟨dm, du, dp, 1⟩ .m .base) :=
    Quantity.get_eq_ok _ _ _ (by simpa [UnityVal.dim] using hdu)
  have hgt : (⟨tm, tu, tp, (1 : ℤ)⟩ : Quantity).get .s .base =
      .ok (Quantity.getP ⟨tm, tu, tp, 1⟩ .s .base) :=
    Quantity.get_eq_ok _ _ _ (by simpa [UnityVal.dim] using htu)
  have hgs : (⟨sm, su, sp, (1 : ℤ)⟩ : Quantity).get .m_s .base =
      .ok (Quantity.getP ⟨sm, su, sp, 1⟩ .m_s .base) :=
    Quantity.get_eq_ok _ _ _ (by simpa [UnityVal.dim] using hsu)
  have htmul : Time.mul ⟨tm, tu, tp, 1⟩ ⟨sm, su, sp, 1⟩ =
      .ok (.quant (Distance.m (Quantity.getP ⟨tm, tu, tp, 1⟩ .s .base *
        Quantity.getP ⟨sm, su, sp, 1⟩ .m_s .base))) := by
    simp [Time.mul, hsu, hgt, hgs]
  refine ⟨?_, ?_, htmul, ?_, ?_⟩
  · simp [Distance.truediv, htu, hgd, hgt, ht0]
  · exact Quantity.getP_base_unit _ _ rfl
  · simp only [Speed.mul]
    rw [if_pos htu]
    exact htmul
  · norm_num [Speed.mul, Time.mul, UnityVal.dim, Speed.m_s, Time.s, Distance.m,
      Quantity.get, convert_unity, convert_pfx, UnityVal.convert_to_base, Pfx.as_float]

/-- Claim C5 witness at 10 m / 4 s and 4 s × 7 m/s. -/
theorem c5_distance_time_speed_witness :
    Quantity.getP ⟨4, .s, .base, 1⟩ .s .base ≠ 0 ∧
    (Distance.truediv ⟨10, .m, .base, 1⟩ ⟨4, .s, .base, 1⟩ =
      .ok (.quant (Speed.m_s (Quantity.getP ⟨10, .m, .base, 1⟩ .m .base /
        Quantity.getP ⟨4, .s, .base, 1⟩ .s .base))) ∧
    Quantity.getP (Speed.m_s (Quantity.getP ⟨10, .m, .base, 1⟩ .m .base /
        Quantity.getP ⟨4, .s, .base, 1⟩ .s .base)) .m_s .base =
      Quantity.getP ⟨10, .m, .base, 1⟩ .m .base /
        Quantity.getP ⟨4, .s, .base, 1⟩ .s .base ∧
    Time.mul ⟨4, .s, .base, 1⟩ ⟨7, .m_s, .base, 1⟩ =
      .ok (.quant (Distance.m (Quantity.getP ⟨4, .s, .base, 1⟩ .s .base *
        Quantity.getP ⟨7, .m_s, .base, 1⟩ .m_s .base))) ∧
    Speed.mul ⟨7, .m_s, .base, 1⟩ ⟨4, .s, .base, 1⟩ =
      .ok (.quant (Distance.m (Quantity.getP ⟨4, .s, .base, 1⟩ .s .base *
        Quantity.getP ⟨7, .m_s, .base, 1⟩ .m_s .base))) ∧
    Speed.mul (Speed.m_s 5) (Time.s 10) = .ok (.quant (Distance.m 50))) :=
  ⟨by norm_num [Quantity.getP, convert_pfx, Pfx.as_float, UnityVal.convert_to_base],
   c5_distance_time_speed 10 .m .base 4 .s .base 7 .m_s .base rfl rfl rfl
     (by norm_num [Quantity.getP, convert_pfx, Pfx.as_float, UnityVal.convert_to_base])⟩

/-- Claim C10: Distance × Frequency is computed as `d / (1/f)`; `1/f` is a
Time of `1/hz` seconds, and the division yields a Speed in m/s equal to
metres times hertz. -/
theorem c10_distance_frequency
    (dm : ℚ) (du : UnityVal) (dp : Pfx) (fm : ℚ) (fu : UnityVal) (fp : Pfx)
    (hdu : du.dim = .distance) (hfu : fu.dim = .frequency)
    (hf0 : Quantity.getP ⟨fm, fu, fp, 1⟩ .hz .base ≠ 0) :
    Frequency.rtruediv 1 ⟨fm, fu, fp, 1⟩ =
      .ok ⟨1 / Quantity.getP ⟨fm, fu, fp, 1⟩ .hz .base, .s, .base, 1⟩ ∧
    Distance.mul ⟨dm, du, dp, 1⟩ ⟨fm, fu, fp, 1⟩ =
      Distance.truediv ⟨dm, du, dp, 1⟩
        ⟨1 / Quantity.getP ⟨fm, fu, fp, 1⟩ .hz .base, .s, .base, 1⟩ ∧
    Distance.mul ⟨dm, du, dp, 1⟩ ⟨fm, fu, fp, 1⟩ =
      .ok (.quant (Speed.m_s (Quantity.getP ⟨dm, du, dp, 1⟩ .m .base *
        Quantity.getP ⟨fm, fu, fp, 1⟩ .hz .base))) := by
  have hgf : (⟨fm, fu, fp, (1 : ℤ)⟩ : Quantity).get .hz .base =
      .ok (Quantity.getP ⟨fm, fu, fp, 1⟩ .hz .base) :=
    Quantity.get_eq_ok _ _ _ (by simpa [UnityVal.dim] using hfu)
  have hrt : Frequency.rtruediv 1 ⟨fm, fu, fp, 1⟩ =
      .ok ⟨1 / Quantity.getP ⟨fm, fu, fp, 1⟩ .hz .base, .s, .base, 1⟩ := by
    simp [Frequency.rtruediv, hgf, hf0]
  have hmul : Distance.mul ⟨dm, du, dp, 1⟩ ⟨fm, fu, fp, 1⟩ =
      Distance.truediv ⟨dm, du, dp, 1⟩
        ⟨1 / Quantity.getP ⟨fm, fu, fp, 1⟩ .hz .base, .s, .base, 1⟩ := by
    simp [Distance.mul, hfu, hrt]
  have hgd : (⟨dm, du, dp, (1 : ℤ)⟩ : Quantity).get .m .base =
      .ok (Quantity.getP ⟨dm, du, dp, 1⟩ .m .base) :=
    Quantity.get_eq_ok _ _ _ (by simpa [UnityVal.dim] using hdu)
  have hgt : ∀ v : ℚ, (⟨v, .s, .base, (1 : ℤ)⟩ : Quantity).get .s .base = .ok v := by
    intro v
    rw [Quantity.get_eq_ok _ _ _ rfl]
    simp [Quantity.getP, convert_pfx, Pfx.as_float, UnityVal.convert_to_base]
  refine ⟨hrt, hmul, ?_⟩
  rw [hmul]
  simp [Distance.truediv, UnityVal.dim, hgd, hgt, hf0, div_inv_eq_mul]

/-- Claim C10 witness at 3 m × 4 Hz. -/
theorem c10_distance_frequency_witness :
    Quantity.getP ⟨4, .hz, .base, 1⟩ .hz .base ≠ 0 ∧
    (Frequency.rtruediv 1 ⟨4, .hz, .base, 1⟩ =
      .ok ⟨1 / Quantity.getP ⟨4, .hz, .base, 1⟩ .hz .base, .s, .base, 1⟩ ∧
    Distance.mul ⟨3, .m, .base, 1⟩ ⟨4, .hz, .base, 1⟩ =
      Distance.truediv ⟨3, .m, .base, 1⟩
        ⟨1 / Quantity.getP ⟨4, .hz, .base, 1⟩ .hz .base, .s, .base, 1⟩ ∧
    Distance.mul ⟨3, .m, .base, 1⟩ ⟨4, .hz, .base, 1⟩ =
      .ok (.quant (Speed.m_s (Quantity.getP ⟨3, .m, .base, 1⟩ .m .base *
        Quantity.getP ⟨4, .hz, .base, 1⟩ .hz .base)))) :=
  ⟨by norm_num [Quantity.getP, convert_pfx, Pfx.as_float, UnityVal.convert_to_base],
   c10_distance_frequency 3 .m .base 4 .hz .base rfl rfl
     (by norm_num [Quantity.getP, convert_pfx, Pfx.as_float, UnityVal.convert_to_base])⟩

/-- `get` to seconds at base prefix of a base-second quantity is its
magnitude, at any power. -/
theorem Quantity.get_s_base (v : ℚ) (p : ℤ) :
    (⟨v, .s, .base, p⟩ : Quantity).get .s .base = .ok v := by
  rw [Quantity.get_eq_ok _ _ _ rfl]
  simp [Quantity.getP, convert_pfx, Pfx.as_float, UnityVal.convert_to_base]

/-- `get` to hertz at base prefix of a base-hertz quantity is its
magnitude, at any power. -/
theorem Quantity.get_hz_base (v : ℚ) (p : ℤ) :
    (⟨v, .hz, .base, p⟩ : Quantity).get .hz .base = .ok v := by
  rw [Quantity.get_eq_ok _ _ _ rfl]
  simp [Quantity.getP, convert_pfx, Pfx.as_float, UnityVal.convert_to_base]

/-- Converting a quantity to a base unit and reading the result back in the
original unit and prefix agrees with the original conversion (the key
cancellation behind the Time↔Frequency reciprocal round trip). -/
theorem Quantity.getP_roundtrip (m : ℚ) (u : UnityVal) (pf : Pfx) (p : ℤ)
    (bu : UnityVal) (hb : bu.convert_to_base = 1) :
    Quantity.getP ⟨Quantity.getP ⟨m, u, pf, p⟩ bu .base, bu, .base, p⟩ u pf =
      Quantity.getP ⟨m, u, pf, p⟩ u pf := by
  have htb : u.convert_to_base ≠ 0 := ne_of_gt (UnityVal.convert_to_base_pos u)
  have base1 : Pfx.base.as_float = 1 := rfl
  simp only [Quantity.getP, convert_pfx, hb, base1, div_one, one_zpow,
    div_zpow, div_self htb, one_div, mul_one, inv_zpow]
  calc m * u.convert_to_base ^ p * pf.as_float * (u.convert_to_base ^ p)⁻¹ *
        (pf.as_float ^ p)⁻¹
      = m * (pf.as_float / pf.as_float ^ p) *
          (u.convert_to_base ^ p * (u.convert_to_base ^ p)⁻¹) := by
        rw [div_eq_mul_inv]; ring
    _ = m * (pf.as_float / pf.as_float ^ p) := by
        rw [mul_inv_cancel₀ (zpow_ne_zero p htb), mul_one]

/-- Claim C8: for any quantity with nonzero magnitude, `1/(1/Q)` equals
`Q`: the generic reciprocal keeps unit and prefix, negates the power and
inverts the magnitude, so applying it twice is the structural identity;
`1/Time` is a Frequency in hertz and `1/Frequency` a Time in seconds, and
applying the pair reconstructs a quantity satisfying `Q == result` under
the code's own `__eq__`. -/
theorem c8_reciprocal (q : Quantity) (hm : q.magnitude ≠ 0) :
    (q.unity.dim ≠ .time → q.unity.dim ≠ .frequency →
      Quantity.rtruediv_dispatch 1 q =
        .ok ⟨1 / q.magnitude, q.unity, q.pfx, q.power * (-1)⟩ ∧
      (Quantity.rtruediv_dispatch 1 q).bind (Quantity.rtruediv_dispatch 1) = .ok q ∧
      q.eqOp q = .ok true) ∧
    (q.unity.dim = .time →
      ∃ r, (Quantity.rtruediv_dispatch 1 q).bind (Quantity.rtruediv_dispatch 1) = .ok r ∧
        r = ⟨Quantity.getP q .s .base, .s, .base, q.power⟩ ∧ q.eqOp r = .ok true) ∧
    (q.unity.dim = .frequency →
      ∃ r, (Quantity.rtruediv_dispatch 1 q).bind (Quantity.rtruediv_dispatch 1) = .ok r ∧
        r = ⟨Quantity.getP q .hz .base, .hz, .base, q.power⟩ ∧ q.eqOp r = .ok true) := by
  obtain ⟨m, u, pf, p⟩ := q
  simp only at hm
  refine ⟨?_, ?_, ?_⟩
  · intro ht hf
    simp only at ht hf
    have hgen : ∀ v : ℚ, ∀ n : ℤ, Quantity.rtruediv_dispatch 1 ⟨v, u, pf, n⟩ =
        Quantity.rtruediv_generic 1 ⟨v, u, pf, n⟩ := by
      intro v n
      cases hd : u.dim with
      | time => exact absurd hd ht
      | frequency => exact absurd hd hf
      | distance => simp [Quantity.rtruediv_dispatch, hd]
      | speed => simp [Quantity.rtruediv_dispatch, hd]
      | acceleration => simp [Quantity.rtruediv_dispatch, hd]
    have h1 : Quantity.rtruediv_dispatch 1 ⟨m, u, pf, p⟩ =
        .ok ⟨1 / m, u, pf, p * (-1)⟩ := by
      rw [hgen]
      simp [Quantity.rtruediv_generic, hm]
    refine ⟨h1, ?_, Quantity.eqOp_self _⟩
    rw [h1]
    show Quantity.rtruediv_dispatch 1 ⟨1 / m, u, pf, p * (-1)⟩ = _
    rw [hgen]
    simp [Quantity.rtruediv_generic, hm, one_div_one_div, mul_neg_one, neg_neg]
  · intro hd
    simp only at hd
    have hgs : (⟨m, u, pf, p⟩ : Quantity).get .s .base =
        .ok (Quantity.getP ⟨m, u, pf, p⟩ .s .base) :=
      Quantity.get_eq_ok _ _ _ (by simpa [UnityVal.dim] using hd)
    have hz : Quantity.getP ⟨m, u, pf, p⟩ .s .base ≠ 0 :=
      Quantity.getP_ne_zero _ _ _ hm
    refine ⟨⟨Quantity.getP ⟨m, u, pf, p⟩ .s .base, .s, .base, p⟩, ?_, rfl, ?_⟩
    · have ht1 : Quantity.rtruediv_dispatch 1 ⟨m, u, pf, p⟩ =
          .ok ⟨1 / Quantity.getP ⟨m, u, pf, p⟩ .s .base, .hz, .base, p⟩ := by
        simp [Quantity.rtruediv_dispatch, hd, Time.rtruediv, hgs, hz]
      rw [ht1]
      show Quantity.rtruediv_dispatch 1
        ⟨1 / Quantity.getP ⟨m, u, pf, p⟩ .s .base, .hz, .base, p⟩ = _
      simp [Quantity.rtruediv_dispatch, UnityVal.dim, Frequency.rtruediv,
        Quantity.get_hz_base, hz, one_div_one_div]
    · have hgr : (⟨Quantity.getP ⟨m, u, pf, p⟩ .s .base, .s, .base, p⟩ :
          Quantity).get u pf =
          .ok (Quantity.getP ⟨Quantity.getP ⟨m, u, pf, p⟩ .s .base, .s, .base, p⟩ u pf) :=
        Quantity.get_eq_ok _ _ _ (by simpa [UnityVal.dim] using hd.symm)
      have hq : (⟨m, u, pf, p⟩ : Quantity).get u pf =
          .ok (Quantity.getP ⟨m, u, pf, p⟩ u pf) := Quantity.get_eq_ok _ _ _ rfl
      simp [Quantity.eqOp, Quantity.check_compatibility, unity_isinstance_quantity,
        hq, hgr, Quantity.getP_roundtrip m u pf p .s rfl]
  · intro hd
    simp only at hd
    have hgf : (⟨m, u, pf, p⟩ : Quantity).get .hz .base =
        .ok (Quantity.getP ⟨m, u, pf, p⟩ .hz .base) :=
      Quantity.get_eq_ok _ _ _ (by simpa [UnityVal.dim] using hd)
    have hz : Quantity.getP ⟨m, u, pf, p⟩ .hz .base ≠ 0 :=
      Quantity.getP_ne_zero _ _ _ hm
    refine ⟨⟨Quantity.getP ⟨m, u, pf, p⟩ .hz .base, .hz, .base, p⟩, ?_, rfl, ?_⟩
    · have ht1 : Quantity.rtruediv_dispatch 1 ⟨m, u, pf, p⟩ =
          .ok ⟨1 / Quantity.getP ⟨m, u, pf, p⟩ .hz .base, .s, .base, p⟩ := by
        simp [Quantity.rtruediv_dispatch, hd, Frequency.rtruediv, hgf, hz]
      rw [ht1]
      show Quantity.rtruediv_dispatch 1
        ⟨1 / Quantity.getP ⟨m, u, pf, p⟩ .hz .base, .s, .base, p⟩ = _
      simp [Quantity.rtruediv_dispatch, UnityVal.dim, Time.rtruediv,
        Quantity.get_s_base, hz, one_div_one_div]
    · have hgr : (⟨Quantity.getP ⟨m, u, pf, p⟩ .hz .base, .hz, .base, p⟩ :
          Quantity).get u pf =
          .ok (Quantity.getP ⟨Quantity.getP ⟨m, u, pf, p⟩ .hz .base, .hz, .base, p⟩ u pf) :=
        Quantity.get_eq_ok _ _ _ (by simpa [UnityVal.dim] using hd.symm)
      have hq : (⟨m, u, pf, p⟩ : Quantity).get u pf =
          .ok (Quantity.getP ⟨m, u, pf, p⟩ u pf) := Quantity.get_eq_ok _ _ _ rfl
      simp [Quantity.eqOp, Quantity.check_compatibility, unity_isinstance_quantity,
        hq, hgr, Quantity.getP_roundtrip m u pf p .hz rfl]

/-- Claim C8 witness at `Time(5, S, BASE, 1)`. -/
theorem c8_reciprocal_witness :
    (⟨5, .s, .base, 1⟩ : Quantity).magnitude ≠ 0 ∧
    (((⟨5, .s, .base, 1⟩ : Quantity).unity.dim ≠ .time →
        (⟨5, .s, .base, 1⟩ : Quantity).unity.dim ≠ .frequency →
      Quantity.rtruediv_dispatch 1 ⟨5, .s, .base, 1⟩ =
        .ok ⟨1 / (⟨5, .s, .base, 1⟩ : Quantity).magnitude,
          (⟨5, .s, .base, 1⟩ : Quantity).unity, (⟨5, .s, .base, 1⟩ : Quantity).pfx,
          (⟨5, .s, .base, 1⟩ : Quantity).power * (-1)⟩ ∧
      (Quantity.rtruediv_dispatch 1 ⟨5, .s, .base, 1⟩).bind
        (Quantity.rtruediv_dispatch 1) = .ok ⟨5, .s, .base, 1⟩ ∧
      Quantity.eqOp ⟨5, .s, .base, 1⟩ ⟨5, .s, .base, 1⟩ = .ok true) ∧
    ((⟨5, .s, .base, 1⟩ : Quantity).unity.dim = .time →
      ∃ r, (Quantity.rtruediv_dispatch 1 ⟨5, .s, .base, 1⟩).bind
          (Quantity.rtruediv_dispatch 1) = .ok r ∧
        r = ⟨Quantity.getP ⟨5, .s, .base, 1⟩ .s .base, .s, .base,
          (⟨5, .s, .base, 1⟩ : Quantity).power⟩ ∧
        Quantity.eqOp ⟨5, .s, .base, 1⟩ r = .ok true) ∧
    ((⟨5, .s, .base, 1⟩ : Quantity).unity.dim = .frequency →
      ∃ r, (Quantity.rtruediv_dispatch 1 ⟨5, .s, .base, 1⟩).bind
          (Quantity.rtruediv_dispatch 1) = .ok r ∧
        r = ⟨Quantity.getP ⟨5, .s, .base, 1⟩ .hz .base, .hz, .base,
          (⟨5, .s, .base, 1⟩ : Quantity).power⟩ ∧
        Quantity.eqOp ⟨5, .s, .base, 1⟩ r = .ok true)) :=
  ⟨by norm_num, c8_reciprocal ⟨5, .s, .base, 1⟩ (by norm_num)⟩

/-- Evaluation of `formatFixed` from the rounded scaled value and its digit
split. -/
theorem formatFixed_eq (x : ℚ) (width pdec : Nat) (zp : Bool) (n q r : ℤ)
    (hscaled : roundHalfEven (|x| * (10 : ℚ) ^ pdec) = n)
    (hq : n / (10 : ℤ) ^ pdec = q) (hr : n % (10 : ℤ) ^ pdec = r) (hx : ¬ x < 0) :
    formatFixed x width pdec zp =
      padLeft (if zp then '0' else ' ') width
        (if pdec = 0 then toString n
         else toString q ++ "." ++ padLeft '0' pdec (toString r)) := by
  simp [formatFixed, hscaled, hq, hr, hx]

/-- `by_degree` evaluation for a positive argument, from the component
values. -/
theorem DMS.by_degree_eval_pos (x : ℚ) (hx : 0 < x) (c : ℤ) (hc : ⌊x⌋ = c)
    (ax ac : ℚ) (hax : |x| = ax) (hac : |(c : ℚ)| = ac) (mi : ℤ)
    (hmi : ⌊(ax - ac) * 60⌋ = mi) :
    DMS.by_degree x = ⟨(c : ℚ), (mi : ℚ), ((ax - ac) * 60 - (mi : ℚ)) * 60⟩ := by
  simp only [DMS.by_degree, if_pos hx, hc, hax, hac, hmi]

/-- `by_degree` evaluation for a nonpositive argument, from the component
values. -/
theorem DMS.by_degree_eval_neg (x : ℚ) (hx : ¬ 0 < x) (c : ℤ) (hc : ⌈x⌉ = c)
    (ax ac : ℚ) (hax : |x| = ax) (hac : |(c : ℚ)| = ac) (mi : ℤ)
    (hmi : ⌊(ax - ac) * 60⌋ = mi) :
    DMS.by_degree x = ⟨(c : ℚ), (mi : ℚ), ((ax - ac) * 60 - (mi : ℚ)) * 60⟩ := by
  simp only [DMS.by_degree, if_neg hx, hc, hax, hac, hmi]

/-- `by_degree(20.5)` splits into 20 degrees, 30 minutes, 0 seconds. -/
theorem DMS.by_degree_pos_example : DMS.by_degree (41 / 2) = ⟨20, 30, 0⟩ := by
  rw [DMS.by_degree_eval_pos (41 / 2) (by norm_num) 20 (by norm_num) (41 / 2) 20
    (abs_of_nonneg (by norm_num)) (by norm_num) 30 (by norm_num)]
  norm_num [DMS.mk.injEq]

/-- `by_degree(-43.6474)` splits into -43 degrees, 38 minutes, 50.64
seconds. -/
theorem DMS.by_degree_neg_example :
    DMS.by_degree (-(436474 / 10000)) = ⟨-43, 38, 1266 / 25⟩ := by
  rw [DMS.by_degree_eval_neg (-(436474 / 10000)) (by norm_num) (-43)
    (by rw [Int.ceil_eq_iff]; norm_num)
    (436474 / 10000) 43
    (by rw [abs_of_neg (by norm_num : (-(436474 / 10000) : ℚ) < 0)]; norm_num)
    (by rw [show (((-43 : ℤ) : ℚ)) = -43 by norm_num,
          abs_of_neg (by norm_num : (-43 : ℚ) < 0)]; norm_num)
    38 (by norm_num)]
  norm_num [DMS.mk.injEq]

/-- `to_string` of 20°30'0" at the default precision. -/
theorem DMS.to_string_pos_example :
    DMS.to_string ⟨20, 30, 0⟩ 0 false = "20°30'00\"" := by
  have f20 : formatFixed 20 2 0 true = "20" := by
    rw [formatFixed_eq 20 2 0 true 20 20 0
      (by have h1 : |(20 : ℚ)| = 20 := abs_of_nonneg (by norm_num)
          norm_num [roundHalfEven, h1, Int.fract])
      (by norm_num) (by norm_num) (by norm_num)]
    rfl
  have f30 : formatFixed 30 2 0 true = "30" := by
    rw [formatFixed_eq 30 2 0 true 30 30 0
      (by have h1 : |(30 : ℚ)| = 30 := abs_of_nonneg (by norm_num)
          norm_num [roundHalfEven, h1, Int.fract])
      (by norm_num) (by norm_num) (by norm_num)]
    rfl
  have f00 : formatFixed 0 2 0 true = "00" := by
    rw [formatFixed_eq 0 2 0 true 0 0 0
      (by have h1 : |(0 : ℚ)| = 0 := abs_of_nonneg (by norm_num)
          norm_num [roundHalfEven, h1, Int.fract])
      (by norm_num) (by norm_num) (by norm_num)]
    rfl
  have h20 : |(20 : ℚ)| = 20 := abs_of_nonneg (by norm_num)
  norm_num [DMS.to_string, h20, f20, f30, f00]
  rfl

/-- `to_string` of -43°38'50.64" at precision 3 (sign suppressed). -/
theorem DMS.to_string_neg_example :
    DMS.to_string ⟨-43, 38, 1266 / 25⟩ 3 false = "43°38'50.640\"" := by
  have f43 : formatFixed 43 2 0 true = "43" := by
    rw [formatFixed_eq 43 2 0 true 43 43 0
      (by have h1 : |(43 : ℚ)| = 43 := abs_of_nonneg (by norm_num)
          norm_num [roundHalfEven, h1, Int.fract])
      (by norm_num) (by norm_num) (by norm_num)]
    rfl
  have f38 : formatFixed 38 2 0 true = "38" := by
    rw [formatFixed_eq 38 2 0 true 38 38 0
      (by have h1 : |(38 : ℚ)| = 38 := abs_of_nonneg (by norm_num)
          norm_num [roundHalfEven, h1, Int.fract])
      (by norm_num) (by norm_num) (by norm_num)]
    rfl
  have fsec : formatFixed (1266 / 25) 6 3 false = "50.640" := by
    rw [formatFixed_eq (1266 / 25) 6 3 false 50640 50 640
      (by have h1 : |(1266 / 25 : ℚ)| = 1266 / 25 := abs_of_nonneg (by norm_num)
          norm_num [roundHalfEven, h1, Int.fract])
      (by norm_num) (by norm_num) (by norm_num)]
    rfl
  have h43 : |(-43 : ℚ)| = 43 := by
    rw [abs_of_neg (by norm_num : (-43 : ℚ) < 0)]
    norm_num
  norm_num [DMS.to_string, h43, f43, f38, fsec]
  rfl

/-- Claim C9 counterexample: the spec's second literal is wrong; the code
formats `by_degree(-43.6474)` at precision 3 as `43°38'50.640"` (the exact
seconds are 50.64), not approximately `43°38'51.000"`. -/
theorem c9_tostring_counterexample :
    DMS.to_string (DMS.by_degree (-(436474 / 10000))) 3 false = "43°38'50.640\"" ∧
    "43°38'50.640\"" ≠ "43°38'51.000\"" := by
  constructor
  · rw [DMS.by_degree_neg_example]
    exact DMS.to_string_neg_example
  · decide

/-- Claim C9 amended: `by_degree(20.5)` gives (20, 30, 0) and formats as
`20°30'00"`; `by_degree(-43.6474)` formatted at precision 3 gives
`43°38'50.640"` with the sign suppressed by default. -/
theorem c9_dms_amended :
    DMS.by_degree (41 / 2) = ⟨20, 30, 0⟩ ∧
    DMS.to_string ⟨20, 30, 0⟩ 0 false = "20°30'00\"" ∧
    DMS.to_string (DMS.by_degree (-(436474 / 10000))) 3 false =
      "43°38'50.640\"" := by
  refine ⟨DMS.by_degree_pos_example, DMS.to_string_pos_example, ?_⟩
  rw [DMS.by_degree_neg_example]
  exact DMS.to_string_neg_example

/-- Claim C7 counterexample: the decimal-degree round trip fails on
`(-1, 0)`: `by_degree(-1/2)` has degree component 0, whose sign is treated
as positive, so `get_degrees` returns `+1/2`, not `-1/2`. -/
theorem c7_roundtrip_counterexample :
    DMS.get_degrees (DMS.by_degree (-(1 / 2))) = 1 / 2 ∧ ((1 : ℚ) / 2) ≠ -(1 / 2) := by
  have hbd : DMS.by_degree (-(1 / 2)) = ⟨0, 30, 0⟩ := by
    rw [DMS.by_degree_eval_neg (-(1 / 2)) (by norm_num) 0 (by norm_num) (1 / 2) 0
      (by rw [abs_of_neg (by norm_num : (-(1 / 2) : ℚ) < 0)]; norm_num)
      (by norm_num) 30 (by norm_num)]
    norm_num [DMS.mk.injEq]
  rw [hbd]
  constructor
  · norm_num [DMS.get_degrees, copysignQ]
  · norm_num

/-- Claim C7 amended: for every decimal degree `d` in `(-180, 180)` outside
the open interval `(-1, 0)`, decomposing with `by_degree` and recomposing
with `get_degrees` returns exactly `d` (in exact arithmetic). -/
theorem c7_roundtrip_amended (x : ℚ) (h1 : -180 < x) (h2 : x < 180)
    (hx : ¬(-1 < x ∧ x < 0)) :
    DMS.get_degrees (DMS.by_degree x) = x := by
  rcases lt_trichotomy x 0 with hneg | rfl | hpos
  · have hle : x ≤ -1 := by
      by_contra hcon
      push_neg at hcon
      exact hx ⟨hcon, hneg⟩
    have hnotpos : ¬(0 < x) := not_lt.mpr hneg.le
    have hceil : (⌈x⌉ : ℚ) ≤ -1 := by
      exact_mod_cast Int.ceil_le.mpr (show x ≤ ((-1 : ℤ) : ℚ) by exact_mod_cast hle)
    have hceilneg : (⌈x⌉ : ℚ) < 0 := lt_of_le_of_lt hceil (by norm_num)
    simp only [DMS.by_degree, DMS.get_degrees, copysignQ, if_neg hnotpos,
      abs_of_neg hneg, abs_of_neg hceilneg, if_pos hceilneg]
    ring
  · norm_num [DMS.by_degree, DMS.get_degrees, copysignQ]
  · have hfloor : (0 : ℚ) ≤ (⌊x⌋ : ℚ) := by
      exact_mod_cast Int.floor_nonneg.mpr hpos.le
    simp only [DMS.by_degree, DMS.get_degrees, copysignQ, if_pos hpos,
      abs_of_pos hpos, abs_of_nonneg hfloor, if_neg (not_lt.mpr hfloor)]
    ring

/-- Claim C7 witness at d = 20.5. -/
theorem c7_roundtrip_amended_witness :
    ((-180 : ℚ) < 41 / 2) ∧ ((41 : ℚ) / 2 < 180) ∧
    ¬((-1 : ℚ) < 41 / 2 ∧ (41 : ℚ) / 2 < 0) ∧
    DMS.get_degrees (DMS.by_degree (41 / 2)) = 41 / 2 :=
  ⟨by norm_num, by norm_num, by norm_num,
    c7_roundtrip_amended (41 / 2) (by norm_num) (by norm_num) (by norm_num)⟩

/-- The modulus `2π` used by `Bearing.coerce` is positive. -/
theorem two_pi_pos : (0 : ℝ) < 2 * Real.pi := by positivity

/-- The radian factory stores the radian value unchanged. -/
theorem AngleQ.get_rad_radQ (v : ℝ) : (Angle.radQ v).get_rad = v := by
  simp [Angle.radQ, AngleQ.get_rad, AngleUnit.convert_to_base]

/-- Scalar form of `Bearing.coerce`. -/
theorem Bearing.coerce_get_rad (a : AngleQ) :
    (Bearing.coerce a).get_rad =
      fmodR a.get_rad (2 * Real.pi) + (if 0 ≤ a.get_rad then 0 else 2 * Real.pi) := by
  simp [Bearing.coerce, AngleQ.get_rad_radQ]

/-- For a nonnegative argument, `fmod` by `2π` is `2π` times the
fractional part of the quotient. -/
theorem fmodR_nonneg_eq (x : ℝ) (hx : 0 ≤ x) :
    fmodR x (2 * Real.pi) = (2 * Real.pi) * Int.fract (x / (2 * Real.pi)) := by
  have hz : 0 ≤ x / (2 * Real.pi) := div_nonneg hx two_pi_pos.le
  rw [fmodR, truncR, if_pos hz, Int.fract, mul_sub,
    mul_div_cancel₀ _ (ne_of_gt two_pi_pos)]

/-- For a negative argument, `fmod` by `2π` uses the ceiling of the
quotient. -/
theorem fmodR_neg_eq (x : ℝ) (hx : x < 0) :
    fmodR x (2 * Real.pi) =
      (2 * Real.pi) * (x / (2 * Real.pi) - ⌈x / (2 * Real.pi)⌉) := by
  have hz : ¬ 0 ≤ x / (2 * Real.pi) :=
    not_le.mpr (div_neg_of_neg_of_pos hx two_pi_pos)
  rw [fmodR, truncR, if_neg hz, mul_sub, mul_div_cancel₀ _ (ne_of_gt two_pi_pos)]

/-- For a nonnegative argument, `fmod` by `2π` lands in `[0, 2π)`. -/
theorem fmodR_nonneg_mem (x : ℝ) (hx : 0 ≤ x) :
    fmodR x (2 * Real.pi) ∈ Set.Ico 0 (2 * Real.pi) := by
  rw [fmodR_nonneg_eq x hx]
  constructor
  · exact mul_nonneg two_pi_pos.le (Int.fract_nonneg _)
  · calc (2 * Real.pi) * Int.fract (x / (2 * Real.pi)) <
        (2 * Real.pi) * 1 := by
          exact mul_lt_mul_of_pos_left (Int.fract_lt_one _) two_pi_pos
      _ = 2 * Real.pi := mul_one _

/-- `Bearing.coerce` fixes every angle already in `[0, 2π)`. -/
theorem Bearing.coerce_fix (a : AngleQ) (h0 : 0 ≤ a.get_rad)
    (hlt : a.get_rad < 2 * Real.pi) :
    (Bearing.coerce a).get_rad = a.get_rad := by
  rw [Bearing.coerce_get_rad, if_pos h0, add_zero, fmodR, truncR,
    if_pos (div_nonneg h0 two_pi_pos.le)]
  have hfl : ⌊a.get_rad / (2 * Real.pi)⌋ = 0 :=
    Int.floor_eq_zero_iff.mpr
      ⟨div_nonneg h0 two_pi_pos.le, (div_lt_one two_pi_pos).mpr hlt⟩
  rw [hfl]
  simp

/-- Claim C6 counterexample: `coerce` applied to the angle `-2π` returns
exactly `2π`, which is outside `[0, 2π)`; `coerce` is not idempotent there
(`coerce(2π) = 0`), and the Bearing constructed from `-2π` ECCW stores
`2π`. -/
theorem c6_coerce_counterexample :
    (Bearing.coerce (Angle.radQ (-(2 * Real.pi)))).get_rad = 2 * Real.pi ∧
    (Bearing.coerce (Angle.radQ (-(2 * Real.pi)))).get_rad ∉
      Set.Ico (0 : ℝ) (2 * Real.pi) ∧
    (Bearing.coerce (Bearing.coerce (Angle.radQ (-(2 * Real.pi))))).get_rad ≠
      (Bearing.coerce (Angle.radQ (-(2 * Real.pi)))).get_rad ∧
    (Bearing.init (Angle.radQ (-(2 * Real.pi))) .eccw).magnitude = 2 * Real.pi := by
  have hneg : (-(2 * Real.pi) : ℝ) < 0 := by
    have := two_pi_pos
    linarith
  have hval : (Bearing.coerce (Angle.radQ (-(2 * Real.pi)))).get_rad = 2 * Real.pi := by
    rw [Bearing.coerce_get_rad, AngleQ.get_rad_radQ, if_neg (not_le.mpr hneg),
      fmodR_neg_eq _ hneg]
    have hd : (-(2 * Real.pi)) / (2 * Real.pi) = -1 := by
      rw [neg_div, div_self (ne_of_gt two_pi_pos)]
    rw [hd]
    have hc : ⌈(-1 : ℝ)⌉ = -1 := by
      rw [show (-1 : ℝ) = ((-1 : ℤ) : ℝ) by norm_num, Int.ceil_intCast]
    rw [hc]
    push_cast
    ring
  have hfix2 :
      (Bearing.coerce (Bearing.coerce (Angle.radQ (-(2 * Real.pi))))).get_rad = 0 := by
    rw [Bearing.coerce_get_rad, hval, if_pos two_pi_pos.le, add_zero, fmodR, truncR,
      if_pos (by positivity : (0 : ℝ) ≤ 2 * Real.pi / (2 * Real.pi)),
      div_self (ne_of_gt two_pi_pos), Int.floor_one]
    push_cast
    ring
  refine ⟨hval, ?_, ?_, ?_⟩
  · rw [hval]
    intro hmem
    exact absurd hmem.2 (lt_irrefl _)
  · rw [hfix2, hval]
    exact ne_of_lt two_pi_pos
  · have hsr : Bearing.set_reference (Angle.radQ (-(2 * Real.pi))) .eccw =
        Angle.radQ (-(2 * Real.pi)) := by
      simp [Bearing.set_reference, AngleQ.get_rad_radQ]
    rw [Bearing.init, hsr]
    exact hval

/-- Claim C6 amended: for every angle that is not a negative integer
multiple of `2π`, `coerce` lands in `[0, 2π)` and is idempotent there, and
the ECCW Bearing built from it stores a value in `[0, 2π)` (at negative
multiples of `2π` it returns exactly `2π`, see the counterexample). -/
theorem c6_coerce_amended (a : AngleQ)
    (h : ∀ n : ℤ, n < 0 → a.get_rad ≠ (n : ℝ) * (2 * Real.pi)) :
    (Bearing.coerce a).get_rad ∈ Set.Ico 0 (2 * Real.pi) ∧
    (Bearing.coerce (Bearing.coerce a)).get_rad = (Bearing.coerce a).get_rad ∧
    (Bearing.init a .eccw).magnitude ∈ Set.Ico 0 (2 * Real.pi) := by
  have hmem : (Bearing.coerce a).get_rad ∈ Set.Ico 0 (2 * Real.pi) := by
    rcases le_or_lt 0 a.get_rad with h0 | hneg
    · rw [Bearing.coerce_get_rad, if_pos h0, add_zero]
      exact fmodR_nonneg_mem _ h0
    · rw [Bearing.coerce_get_rad, if_neg (not_le.mpr hneg)]
      rw [fmodR_neg_eq _ hneg]
      have hzlt : a.get_rad / (2 * Real.pi) ≤ ⌈a.get_rad / (2 * Real.pi)⌉ :=
        Int.le_ceil _
      have hne : a.get_rad / (2 * Real.pi) ≠ (⌈a.get_rad / (2 * Real.pi)⌉ : ℝ) := by
        intro heq
        have hzneg : a.get_rad / (2 * Real.pi) < 0 :=
          div_neg_of_neg_of_pos hneg two_pi_pos
        have hcle : ⌈a.get_rad / (2 * Real.pi)⌉ ≤ 0 := by
          exact_mod_cast Int.ceil_le.mpr (le_of_lt (by exact_mod_cast hzneg))
        have hcne : ⌈a.get_rad / (2 * Real.pi)⌉ ≠ 0 := by
          intro hc0
          rw [hc0] at heq
          have hz0 : a.get_rad / (2 * Real.pi) = 0 := by exact_mod_cast heq
          rcases div_eq_zero_iff.mp hz0 with hx1 | hx2
          · exact absurd hx1 (ne_of_lt hneg)
          · exact absurd hx2 (ne_of_gt two_pi_pos)
        have hclt : ⌈a.get_rad / (2 * Real.pi)⌉ < 0 := lt_of_le_of_ne hcle hcne
        apply h _ hclt
        have h2p : a.get_rad = 2 * Real.pi * (a.get_rad / (2 * Real.pi)) := by
          rw [mul_div_cancel₀ _ (ne_of_gt two_pi_pos)]
        calc a.get_rad = 2 * Real.pi * (a.get_rad / (2 * Real.pi)) := h2p
          _ = 2 * Real.pi * (⌈a.get_rad / (2 * Real.pi)⌉ : ℝ) :=
              congrArg (fun t => 2 * Real.pi * t) heq
          _ = (⌈a.get_rad / (2 * Real.pi)⌉ : ℝ) * (2 * Real.pi) := mul_comm _ _
      have hstrict : a.get_rad / (2 * Real.pi) -
          (⌈a.get_rad / (2 * Real.pi)⌉ : ℝ) < 0 := by
        have := lt_of_le_of_ne hzlt hne
        linarith
      have hgtm1 : (-1 : ℝ) < a.get_rad / (2 * Real.pi) -
          (⌈a.get_rad / (2 * Real.pi)⌉ : ℝ) := by
        have := Int.ceil_lt_add_one (a.get_rad / (2 * Real.pi))
        linarith
      constructor
      · nlinarith [two_pi_pos]
      · nlinarith [two_pi_pos]
  refine ⟨hmem, Bearing.coerce_fix _ hmem.1 hmem.2, ?_⟩
  have hsr : Bearing.set_reference a .eccw = Angle.radQ a.get_rad := by
    simp [Bearing.set_reference]
  have heq : (Bearing.coerce (Angle.radQ a.get_rad)).get_rad =
      (Bearing.coerce a).get_rad := by
    rw [Bearing.coerce_get_rad, Bearing.coerce_get_rad, AngleQ.get_rad_radQ]
  have hmag : (Bearing.init a .eccw).magnitude =
      (Bearing.coerce a).get_rad := by
    rw [Bearing.init, hsr]
    exact heq
  rw [hmag]
  exact hmem

/-- Claim C6 witness at the angle 3 rad. -/
theorem c6_coerce_amended_witness :
    (∀ n : ℤ, n < 0 → (Angle.radQ 3).get_rad ≠ (n : ℝ) * (2 * Real.pi)) ∧
    ((Bearing.coerce (Angle.radQ 3)).get_rad ∈ Set.Ico 0 (2 * Real.pi) ∧
     (Bearing.coerce (Bearing.coerce (Angle.radQ 3))).get_rad =
       (Bearing.coerce (Angle.radQ 3)).get_rad ∧
     (Bearing.init (Angle.radQ 3) .eccw).magnitude ∈ Set.Ico 0 (2 * Real.pi)) := by
  have hh : ∀ n : ℤ, n < 0 → (Angle.radQ 3).get_rad ≠ (n : ℝ) * (2 * Real.pi) := by
    intro n hn heq
    rw [AngleQ.get_rad_radQ] at heq
    have hn1 : n ≤ -1 := by omega
    have hn2 : (n : ℝ) ≤ -1 := by exact_mod_cast hn1
    have hb : (n : ℝ) * (2 * Real.pi) ≤ (-1) * (2 * Real.pi) :=
      mul_le_mul_of_nonneg_right hn2 two_pi_pos.le
    have := two_pi_pos
    linarith
  exact ⟨hh, c6_coerce_amended _ hh⟩
